import Mathlib

/-!
# Excelworkbookwidget — verification of the state-sync / persistence core

Shallow embedding of the widget's pure core, translated from the JavaScript
sources:

* `src/src/services/dataService.js` and `src/unnamed/part_000`
  (parse / normalise / serialize pipeline),
* `src/src/services/mendixBridge.js` (`triggerSheetChange`),
* `src/src/hooks/useWorkbookState.js` (host-reload guard),
* `src/unnamed/part_003` (`useAutoSave` effects),
* `src/unnamed/part_002` (`usePermissions`) and `src/unnamed/part_005`
  (identity-based permission resolution).

JSON-decoded JavaScript values are modelled by the inductive `JVal`.
A raw widget-attribute string is classified by `RawInput`: the string-level
guards and `JSON.parse` outcomes of the source are represented by the first
three constructors, and a successful `JSON.parse` by `parsed v`.  Code that
can throw a `TypeError` is modelled in `Except`; everything else is total,
exactly as the source recovers every failure locally.
-/

/-- A JSON-decoded JavaScript value (no `undefined`: `JSON.parse` never
produces it; absent object properties are modelled by `Option`). -/
inductive JVal where
  | null
  | bool (b : Bool)
  | num (n : Int)
  | str (s : String)
  | arr (elems : List JVal)
  | obj (fields : List (String × JVal))

/-- `typeof v` in JavaScript (note `typeof null === "object"`). -/
def jsTypeof : JVal → String
  | .null => "object"
  | .bool _ => "boolean"
  | .num _ => "number"
  | .str _ => "string"
  | .arr _ => "object"
  | .obj _ => "object"

/-- `Array.isArray v`. -/
def isJsArray : JVal → Bool
  | .arr _ => true
  | _ => false

/-- JavaScript truthiness of a `JVal`. -/
def jsTruthy : JVal → Bool
  | .null => false
  | .bool b => b
  | .num n => !(n == 0)
  | .str s => !(s == "")
  | .arr _ => true
  | .obj _ => true

/-- `v === null`. -/
def isJsNull : JVal → Bool
  | .null => true
  | _ => false

/-- Property access `v[key]`: `none` models JavaScript `undefined`.
Arrays and primitives have none of the (string-)properties the widget
reads, so only objects yield a value. -/
def jsGet (v : JVal) (key : String) : Option JVal :=
  match v with
  | .obj fields => fields.lookup key
  | _ => none

/-- The nullish-coalescing operator `x ?? d` applied to a property read:
`undefined` (`none`) and `null` both fall back to the default. -/
def jsCoalesce (x : Option JVal) (d : JVal) : JVal :=
  match x with
  | some v => if isJsNull v then d else v
  | none => d

-- ────────────────────────────────────────────────────────────────────
--  constants.js
-- ────────────────────────────────────────────────────────────────────

/-- `MIN_ROWS` from `src/src/utils/constants.js`. -/
def MIN_ROWS : Nat := 50

/-- `MIN_COLS` from `src/src/utils/constants.js`. -/
def MIN_COLS : Nat := 26

/-- `EMPTY_SHEET_DATA()` from `src/src/utils/constants.js`:
a `MIN_ROWS × MIN_COLS` grid of `null`. -/
def EMPTY_SHEET_DATA : List (List JVal) :=
  List.replicate MIN_ROWS (List.replicate MIN_COLS .null)

-- ────────────────────────────────────────────────────────────────────
--  normaliseData (dataService.js; `src/unnamed/part_000` is the same
--  function with the row count fixed to MIN_ROWS)
-- ────────────────────────────────────────────────────────────────────

/-- `Array.isArray(r) ? r.length : 0` for one raw row. -/
def rowWidth : JVal → Nat
  | .arr cells => cells.length
  | _ => 0

/-- `Math.max(...raw.map(r => Array.isArray(r) ? r.length : 0))`
accumulated left to right (`Math.max` of no arguments is `-Infinity`,
dominated by `MIN_COLS`; `0` is a sound floor since widths are naturals). -/
def widestRowWidth (xs : List JVal) : Nat :=
  xs.foldl (fun m r => max m (rowWidth r)) 0

/-- One step of the row-padding `map`: a non-array row becomes an all-`null`
row; a short row is right-padded with `null` to `maxCols` (a row of width
`≥ maxCols` is returned unchanged). -/
def padRow (maxCols : Nat) : JVal → List JVal
  | .arr cells =>
      if cells.length ≥ maxCols then cells
      else cells ++ List.replicate (maxCols - cells.length) .null
  | _ => List.replicate maxCols .null

/-- `normaliseData(raw, rowCount)` from `src/src/services/dataService.js`:
non-array or empty input yields a `rowCount × MIN_COLS` grid of `null`;
otherwise every row is padded to `max(MIN_COLS, widest row)` and all-`null`
rows are appended until there are at least `rowCount` rows.
`raw = none` models passing `undefined` (absent `data` field). -/
def normaliseData (raw : Option JVal) (rowCount : Nat) : List (List JVal) :=
  match raw with
  | some (.arr xs) =>
      if xs.isEmpty then
        List.replicate rowCount (List.replicate MIN_COLS .null)
      else
        let maxCols := max MIN_COLS (widestRowWidth xs)
        let paddedRows := xs.map (padRow maxCols)
        paddedRows ++
          List.replicate (rowCount - paddedRows.length) (List.replicate maxCols .null)
  | _ => List.replicate rowCount (List.replicate MIN_COLS .null)

/-- `normaliseData(raw)` from `src/unnamed/part_000`: textually the
dataService version with the row count fixed to `MIN_ROWS` (its empty-input
branch returns `EMPTY_SHEET_DATA()`, a `MIN_ROWS × MIN_COLS` null grid). -/
def normaliseDataMS (raw : Option JVal) : List (List JVal) :=
  normaliseData raw MIN_ROWS

/-- The target column count of `normaliseData`:
`max(MIN_COLS, widest row present in the input)` (no rows present — input
absent, non-array or empty — counts as widest width `0`). -/
def targetCols (raw : Option JVal) : Nat :=
  match raw with
  | some (.arr xs) => max MIN_COLS (widestRowWidth xs)
  | _ => MIN_COLS

/-- Length of input row `i` where present (`0` when the `data` field is not
an array, the index is out of range, or that row is not an array);
a cell `(i, j)` is carried over from the input exactly when
`j < inputRowLen raw i`. -/
def inputRowLen (raw : Option JVal) (i : Nat) : Nat :=
  match raw with
  | some (.arr xs) =>
      match xs[i]? with
      | some (.arr cells) => cells.length
      | _ => 0
  | _ => 0

-- ── basic lemmas about the grid produced by normaliseData ──

theorem widestRowWidth_le_of_foldl (xs : List JVal) (a : Nat) :
    a ≤ xs.foldl (fun m r => max m (rowWidth r)) a := by
  induction xs generalizing a with
  | nil => simp
  | cons x xs ih =>
      simpa using le_trans (le_max_left a (rowWidth x)) (ih (max a (rowWidth x)))

theorem rowWidth_le_foldl {xs : List JVal} {r : JVal} (h : r ∈ xs) (a : Nat) :
    rowWidth r ≤ xs.foldl (fun m r => max m (rowWidth r)) a := by
  induction xs generalizing a with
  | nil => cases h
  | cons x xs ih =>
      rcases List.mem_cons.mp h with rfl | h'
      · exact le_trans (le_max_right a (rowWidth r))
          (by simpa using widestRowWidth_le_of_foldl xs (max a (rowWidth r)))
      · simpa using ih h' (max a (rowWidth x))

theorem rowWidth_le_widest {xs : List JVal} {r : JVal} (h : r ∈ xs) :
    rowWidth r ≤ widestRowWidth xs :=
  rowWidth_le_foldl h 0

theorem length_padRow (maxCols : Nat) (r : JVal) (h : rowWidth r ≤ maxCols) :
    (padRow maxCols r).length = maxCols := by
  cases r with
  | arr cells =>
      simp only [padRow]
      split
      · next hge => simp [rowWidth] at h; omega
      · simp [List.length_append, List.length_replicate]
        simp [rowWidth] at h
        omega
  | null => simp [padRow]
  | bool b => simp [padRow]
  | num n => simp [padRow]
  | str s => simp [padRow]
  | obj f => simp [padRow]

/-- Every row of `normaliseData raw rowCount` has length `targetCols raw`. -/
theorem normaliseData_row_length (raw : Option JVal) (rowCount : Nat) :
    ∀ row ∈ normaliseData raw rowCount, row.length = targetCols raw := by
  intro row hrow
  match raw with
  | none => simp_all [normaliseData, targetCols]
  | some .null => simp_all [normaliseData, targetCols]
  | some (.bool b) => simp_all [normaliseData, targetCols]
  | some (.num n) => simp_all [normaliseData, targetCols]
  | some (.str s) => simp_all [normaliseData, targetCols]
  | some (.obj f) => simp_all [normaliseData, targetCols]
  | some (.arr xs) =>
      simp only [normaliseData] at hrow
      split at hrow
      · next hemp =>
          have hxs : xs = [] := List.isEmpty_iff.mp hemp
          subst hxs
          have : row = List.replicate MIN_COLS JVal.null :=
            List.eq_of_mem_replicate hrow
          simp [this, targetCols, widestRowWidth]
      · rcases List.mem_append.mp hrow with hmem | hmem
        · rcases List.mem_map.mp hmem with ⟨r, hr, rfl⟩
          exact length_padRow _ r
            (le_trans (rowWidth_le_widest hr) (le_max_right _ _))
        · have := List.eq_of_mem_replicate hmem
          subst this
          simp [targetCols]

/-- `normaliseData` always yields at least `rowCount` rows. -/
theorem normaliseData_length (raw : Option JVal) (rowCount : Nat) :
    rowCount ≤ (normaliseData raw rowCount).length := by
  match raw with
  | none => simp [normaliseData]
  | some .null => simp [normaliseData]
  | some (.bool b) => simp [normaliseData]
  | some (.num n) => simp [normaliseData]
  | some (.str s) => simp [normaliseData]
  | some (.obj f) => simp [normaliseData]
  | some (.arr xs) =>
      simp only [normaliseData]
      split
      · simp
      · simp [List.length_append, List.length_replicate]
        omega

theorem MIN_COLS_le_targetCols (raw : Option JVal) : MIN_COLS ≤ targetCols raw := by
  match raw with
  | none => simp [targetCols]
  | some .null => simp [targetCols]
  | some (.bool b) => simp [targetCols]
  | some (.num n) => simp [targetCols]
  | some (.str s) => simp [targetCols]
  | some (.obj f) => simp [targetCols]
  | some (.arr xs) => simp [targetCols]

theorem padRow_arr_eq (maxCols : Nat) (cells : List JVal) :
    padRow maxCols (.arr cells) =
      cells ++ List.replicate (maxCols - cells.length) .null := by
  simp only [padRow]
  split
  · next hge => simp [Nat.sub_eq_zero_of_le hge]
  · rfl

/-- Row `i` of the normalised grid, for an input row `i` that is an array:
the original cells followed by right-padding `null`s. -/
theorem normaliseData_row_of_present (xs : List JVal) (rowCount i : Nat)
    (cells : List JVal) (hi : xs[i]? = some (.arr cells)) :
    (normaliseData (some (.arr xs)) rowCount)[i]? =
      some (cells ++
        List.replicate (targetCols (some (.arr xs)) - cells.length) .null) := by
  have hlt : i < xs.length := by
    by_contra h
    rw [List.getElem?_eq_none (by omega)] at hi
    exact Option.noConfusion hi
  have hne : xs.isEmpty = false := by
    cases xs
    · simp at hlt
    · rfl
  simp only [normaliseData, hne, if_neg Bool.false_ne_true]
  rw [List.getElem?_append, if_pos (by simpa using hlt)]
  rw [List.getElem?_map, hi]
  simp [targetCols, padRow_arr_eq]

/-- Rows appended below the input (indices `≥ xs.length`) are all-`null`. -/
theorem normaliseData_row_appended (xs : List JVal) (rowCount i : Nat)
    (hne : xs ≠ []) (hlo : xs.length ≤ i)
    (hhi : i < (normaliseData (some (.arr xs)) rowCount).length) :
    (normaliseData (some (.arr xs)) rowCount)[i]? =
      some (List.replicate (targetCols (some (.arr xs))) .null) := by
  have hne' : xs.isEmpty = false := by
    cases xs
    · exact absurd rfl hne
    · rfl
  simp only [normaliseData, hne', if_neg Bool.false_ne_true,
    List.length_append, List.length_map, List.length_replicate] at hhi
  simp only [normaliseData, hne', if_neg Bool.false_ne_true]
  rw [List.getElem?_append, if_neg (by simp; omega)]
  rw [List.getElem?_replicate, if_pos (by simp; omega)]
  simp [targetCols]

-- ────────────────────────────────────────────────────────────────────
--  trimData (dataService.js / `src/unnamed/part_000`: identical bodies)
-- ────────────────────────────────────────────────────────────────────

/-- `isEmpty(v)` of dataService.js: `v === null || v === undefined ||
v === ""`.  Grid cells come from `JSON.parse`d data and the grid editor,
so `undefined` does not occur and is not represented in `JVal`. -/
def isEmptyCell : JVal → Bool
  | .null => true
  | .str s => s == ""
  | _ => false

/-- A row is entirely empty (`row.every(isEmpty)`). -/
def rowAllEmpty (row : List JVal) : Bool :=
  row.all isEmptyCell

/-- The `while (rows.length > 1 && last row empty) rows.pop()` loop, acting
on the REVERSED row list (the head is the grid's last row): drop all-empty
head rows while more than one row remains. -/
def dropEmptyRev : List (List JVal) → List (List JVal)
  | [] => []
  | [r] => [r]
  | r :: s :: t => if rowAllEmpty r then dropEmptyRev (s :: t) else r :: s :: t

/-- Remove trailing all-empty rows, keeping at least one row. -/
def dropTrailingEmptyRows (rows : List (List JVal)) : List (List JVal) :=
  (dropEmptyRev rows.reverse).reverse

/-- Index of the last non-empty cell of one row, `0` if the row is entirely
empty — the per-row contribution of the `for (c = row.length - 1; ...)
break` scan of `trimData` (an all-empty row leaves `maxUsedCol` unchanged,
which `max` with `0` reproduces since the accumulator starts at `0`). -/
def lastUsed (row : List JVal) : Nat :=
  match row.reverse.findIdx? (fun v => !isEmptyCell v) with
  | some i => row.length - 1 - i
  | none => 0

/-- `maxUsedCol` accumulated over the surviving rows. -/
def maxUsedCol (rows : List (List JVal)) : Nat :=
  rows.foldl (fun m r => max m (lastUsed r)) 0

/-- `trimData(data)` from dataService.js (`src/unnamed/part_000` lines
236-262 is the same function): pop trailing all-empty rows while more than
one row remains, then cut every row at the highest used column index + 1.
The source's defensive clone `[...row]` and its non-array guards are
identities on a typed grid. -/
def trimData (data : List (List JVal)) : List (List JVal) :=
  if data.isEmpty then [[]]
  else
    let rows := dropTrailingEmptyRows data
    rows.map (fun row => row.take (maxUsedCol rows + 1))

-- ── structural lemmas about dropEmptyRev / dropTrailingEmptyRows ──

theorem dropEmptyRev_ne_nil {rows : List (List JVal)} (h : rows ≠ []) :
    dropEmptyRev rows ≠ [] := by
  induction rows with
  | nil => exact absurd rfl h
  | cons r t ih =>
      cases t with
      | nil => simp [dropEmptyRev]
      | cons s t' =>
          simp only [dropEmptyRev]
          split
          · exact ih (by simp)
          · simp

theorem dropEmptyRev_suffix (rows : List (List JVal)) :
    (dropEmptyRev rows).IsSuffix rows := by
  induction rows with
  | nil => simp [dropEmptyRev]
  | cons r t ih =>
      cases t with
      | nil => simp [dropEmptyRev]
      | cons s t' =>
          simp only [dropEmptyRev]
          split
          · exact (ih).trans (List.suffix_cons r (s :: t'))
          · simp

/-- Rows removed by the pop loop are all empty. -/
theorem dropEmptyRev_dropped_empty (rows : List (List JVal)) :
    ∀ r ∈ rows.take (rows.length - (dropEmptyRev rows).length),
      rowAllEmpty r = true := by
  induction rows with
  | nil => simp [dropEmptyRev]
  | cons r t ih =>
      cases t with
      | nil => simp [dropEmptyRev]
      | cons s t' =>
          simp only [dropEmptyRev]
          split
          · next hemp =>
              intro x hx
              have hlen : (dropEmptyRev (s :: t')).length ≤ (s :: t').length :=
                (dropEmptyRev_suffix (s :: t')).length_le
              have hstep : (r :: s :: t').length - (dropEmptyRev (s :: t')).length
                  = ((s :: t').length - (dropEmptyRev (s :: t')).length) + 1 := by
                simp only [List.length_cons] at hlen ⊢
                omega
              rw [hstep] at hx
              rcases List.mem_cons.mp (by simpa [List.take_succ_cons] using hx)
                with rfl | hx'
              · exact hemp
              · exact ih x hx'
          · simp

theorem dropEmptyRev_of_head_not_empty {r : List JVal}
    {t : List (List JVal)} (h : rowAllEmpty r = false) :
    dropEmptyRev (r :: t) = r :: t := by
  cases t with
  | nil => rfl
  | cons s t' => simp [dropEmptyRev, h]

/-- Dropping an all-empty block in front of a nonempty remainder. -/
theorem dropEmptyRev_append_empties (es rest : List (List JVal))
    (hes : ∀ e ∈ es, rowAllEmpty e = true) (hrest : rest ≠ []) :
    dropEmptyRev (es ++ rest) = dropEmptyRev rest := by
  induction es with
  | nil => rfl
  | cons e es' ih =>
      have htail : es' ++ rest ≠ [] := by
        simp [hrest]
      rcases List.exists_cons_of_ne_nil htail with ⟨y, ys, hy⟩
      simp only [List.cons_append, hy, dropEmptyRev]
      rw [if_pos (hes e (by simp))]
      rw [← hy]
      exact ih (fun x hx => hes x (by simp [hx]))

-- ── lastUsed: specification and stability lemmas ──

theorem lastUsed_of_allEmpty {row : List JVal} (h : rowAllEmpty row = true) :
    lastUsed row = 0 := by
  unfold lastUsed
  rw [List.findIdx?_eq_none_iff.mpr]
  intro x hx
  have hx' : isEmptyCell x = true :=
    List.all_eq_true.mp h x (List.mem_reverse.mp hx)
  simp [hx']

/-- For a not-entirely-empty row, `lastUsed` points at a non-empty cell and
every later cell is empty. -/
theorem lastUsed_spec {row : List JVal} (h : rowAllEmpty row = false) :
    lastUsed row < row.length ∧
    isEmptyCell (row.getD (lastUsed row) .null) = false ∧
    ∀ j, lastUsed row < j → j < row.length →
      isEmptyCell (row.getD j .null) = true := by
  have hex : ∃ x ∈ row.reverse, (!isEmptyCell x) = true := by
    rcases List.all_eq_true.not.mp (by simp [rowAllEmpty] at h ⊢; exact h) with h'
    push_neg at h'
    rcases h' with ⟨x, hx, hxe⟩
    exact ⟨x, List.mem_reverse.mpr hx, by simp [Bool.not_eq_true] at hxe ⊢; exact hxe⟩
  have hfind := List.findIdx?_eq_some_of_exists hex
  have hlt : (row.reverse.findIdx (fun v => !isEmptyCell v)) < row.reverse.length :=
    List.findIdx_lt_length_of_exists hex
  set i := row.reverse.findIdx (fun v => !isEmptyCell v) with hidef
  have hlen : i < row.length := by simpa using hlt
  have hnil : row ≠ [] := by
    intro hr
    subst hr
    simp at hlen
  have hlu : lastUsed row = row.length - 1 - i := by
    unfold lastUsed
    rw [hfind]
  have hget : row[row.length - 1 - i]? = row.reverse[i]? := by
    rw [List.getElem?_reverse hlen]
  refine ⟨?_, ?_, ?_⟩
  · have : 1 ≤ row.length := List.length_pos.mpr hnil
    omega
  · rw [hlu, List.getD_eq_getElem?_getD, hget]
    rw [List.getElem?_eq_getElem hlt]
    have := @List.findIdx_getElem _ (fun v => !isEmptyCell v) row.reverse hlt
    simp only [Option.getD_some]
    simpa using this
  · intro j hj hjlen
    have hk : row.length - 1 - j < i := by omega
    have hkrev : row.length - 1 - j < row.reverse.length := by simp; omega
    have hval := @List.not_of_lt_findIdx _ (fun v => !isEmptyCell v)
      row.reverse (row.length - 1 - j) hk
    have hidx : row.length - 1 - (row.length - 1 - j) = j := by omega
    rw [List.getD_eq_getElem?_getD]
    have : row[j]? = row.reverse[row.length - 1 - j]? := by
      rw [List.getElem?_reverse (by omega), hidx]
    rw [this, List.getElem?_eq_getElem hkrev]
    simp only [Option.getD_some]
    simpa using hval

theorem rowAllEmpty_false_of_cell {row : List JVal} {k : Nat}
    (hk : k < row.length)
    (hne : isEmptyCell (row.getD k .null) = false) :
    rowAllEmpty row = false := by
  by_contra h
  have h' : rowAllEmpty row = true := by
    cases hall : rowAllEmpty row
    · exact absurd hall h
    · rfl
  have hmem : row.getD k .null ∈ row := by
    rw [List.getD_eq_getElem?_getD, List.getElem?_eq_getElem hk]
    exact List.getElem_mem _
  have := List.all_eq_true.mp h' _ hmem
  rw [this] at hne
  exact Bool.noConfusion hne

/-- Uniqueness: any index holding a non-empty cell with only empty cells
after it is `lastUsed`. -/
theorem lastUsed_eq_of_spec {row : List JVal} {k : Nat}
    (hk : k < row.length)
    (hne : isEmptyCell (row.getD k .null) = false)
    (habove : ∀ j, k < j → j < row.length →
      isEmptyCell (row.getD j .null) = true) :
    lastUsed row = k := by
  have hall : rowAllEmpty row = false := rowAllEmpty_false_of_cell hk hne
  obtain ⟨h1, h2, h3⟩ := lastUsed_spec hall
  rcases Nat.lt_trichotomy (lastUsed row) k with hlt | heq | hgt
  · have := h3 k hlt hk
    rw [this] at hne
    exact Bool.noConfusion hne
  · exact heq
  · have := habove (lastUsed row) hgt h1
    rw [this] at h2
    exact Bool.noConfusion h2

theorem rowAllEmpty_append_nulls (row : List JVal) (k : Nat) :
    rowAllEmpty (row ++ List.replicate k .null) = rowAllEmpty row := by
  have hrep : (List.replicate k JVal.null).all isEmptyCell = true := by
    rw [List.all_eq_true]
    intro x hx
    rw [List.eq_of_mem_replicate hx]
    rfl
  simp [rowAllEmpty, List.all_append, hrep]

theorem lastUsed_append_nulls (row : List JVal) (k : Nat) :
    lastUsed (row ++ List.replicate k .null) = lastUsed row := by
  cases hall : rowAllEmpty row with
  | true =>
      rw [lastUsed_of_allEmpty (by rw [rowAllEmpty_append_nulls]; exact hall),
        lastUsed_of_allEmpty hall]
  | false =>
      obtain ⟨h1, h2, h3⟩ := lastUsed_spec hall
      refine lastUsed_eq_of_spec ?_ ?_ ?_
      · simp
        omega
      · rw [List.getD_append _ _ _ _ h1]
        exact h2
      · intro j hj hjlen
        by_cases hjr : j < row.length
        · rw [List.getD_append _ _ _ _ hjr]
          exact h3 j hj hjr
        · rw [List.getD_eq_getElem?_getD, List.getElem?_append,
            if_neg hjr, List.getElem?_replicate,
            if_pos (by simp at hjlen; omega)]
          rfl

theorem rowAllEmpty_take {row : List JVal} (h : rowAllEmpty row = true)
    (n : Nat) : rowAllEmpty (row.take n) = true := by
  rw [rowAllEmpty, List.all_eq_true]
  intro x hx
  exact List.all_eq_true.mp h x (List.mem_of_mem_take hx)

theorem lastUsed_take {row : List JVal} {n : Nat} (h : lastUsed row < n) :
    lastUsed (row.take n) = lastUsed row := by
  cases hall : rowAllEmpty row with
  | true =>
      rw [lastUsed_of_allEmpty (rowAllEmpty_take hall n),
        lastUsed_of_allEmpty hall]
  | false =>
      obtain ⟨h1, h2, h3⟩ := lastUsed_spec hall
      refine lastUsed_eq_of_spec ?_ ?_ ?_
      · simp
        omega
      · rw [List.getD_eq_getElem?_getD, List.getElem?_take, if_pos h,
          ← List.getD_eq_getElem?_getD]
        exact h2
      · intro j hj hjlen
        have hjr : j < row.length := by
          simp at hjlen
          omega
        rw [List.getD_eq_getElem?_getD, List.getElem?_take,
          if_pos (by simp at hjlen; omega), ← List.getD_eq_getElem?_getD]
        exact h3 j hj hjr

-- ── maxUsedCol: fold lemmas ──

theorem le_foldl_lastUsed (rows : List (List JVal)) (a : Nat) :
    a ≤ rows.foldl (fun m r => max m (lastUsed r)) a := by
  induction rows generalizing a with
  | nil => simp
  | cons x rows ih =>
      simpa using le_trans (le_max_left a (lastUsed x)) (ih (max a (lastUsed x)))

theorem lastUsed_le_foldl {rows : List (List JVal)} {r : List JVal}
    (h : r ∈ rows) (a : Nat) :
    lastUsed r ≤ rows.foldl (fun m r => max m (lastUsed r)) a := by
  induction rows generalizing a with
  | nil => cases h
  | cons x rows ih =>
      rcases List.mem_cons.mp h with rfl | h'
      · exact le_trans (le_max_right a (lastUsed r))
          (by simpa using le_foldl_lastUsed rows (max a (lastUsed r)))
      · simpa using ih h' (max a (lastUsed x))

theorem lastUsed_le_maxUsedCol {rows : List (List JVal)} {r : List JVal}
    (h : r ∈ rows) : lastUsed r ≤ maxUsedCol rows :=
  lastUsed_le_foldl h 0

theorem foldl_lastUsed_le :
    ∀ (rows : List (List JVal)) (a b : Nat),
      (∀ r ∈ rows, lastUsed r ≤ b) → a ≤ b →
      rows.foldl (fun m r => max m (lastUsed r)) a ≤ b := by
  intro rows
  induction rows with
  | nil => intro a b _ ha; simpa
  | cons x rows ih =>
      intro a b h ha
      simp only [List.foldl_cons]
      exact ih _ _ (fun r hr => h r (by simp [hr]))
        (max_le ha (h x (by simp)))

theorem maxUsedCol_le {rows : List (List JVal)} {b : Nat}
    (h : ∀ r ∈ rows, lastUsed r ≤ b) : maxUsedCol rows ≤ b :=
  foldl_lastUsed_le rows 0 b h (Nat.zero_le b)

theorem foldl_lastUsed_map (f : List JVal → List JVal) :
    ∀ (rows : List (List JVal)) (a : Nat),
      (∀ r ∈ rows, lastUsed (f r) = lastUsed r) →
      (rows.map f).foldl (fun m r => max m (lastUsed r)) a =
        rows.foldl (fun m r => max m (lastUsed r)) a := by
  intro rows
  induction rows with
  | nil => intro a _; rfl
  | cons x rows ih =>
      intro a h
      simp only [List.map_cons, List.foldl_cons, h x (by simp)]
      exact ih _ (fun r hr => h r (by simp [hr]))

/-- `maxUsedCol` only depends on the rows' `lastUsed` values. -/
theorem maxUsedCol_map_congr (rows : List (List JVal))
    (f : List JVal → List JVal)
    (h : ∀ r ∈ rows, lastUsed (f r) = lastUsed r) :
    maxUsedCol (rows.map f) = maxUsedCol rows :=
  foldl_lastUsed_map f rows 0 h

theorem lastUsed_le_pred_length (row : List JVal) :
    lastUsed row ≤ row.length - 1 := by
  cases hall : rowAllEmpty row with
  | true => simp [lastUsed_of_allEmpty hall]
  | false =>
      have h1 := (lastUsed_spec hall).1
      omega

theorem widestRowWidth_foldl_le :
    ∀ (xs : List JVal) (a b : Nat),
      (∀ x ∈ xs, rowWidth x ≤ b) → a ≤ b →
      xs.foldl (fun m r => max m (rowWidth r)) a ≤ b := by
  intro xs
  induction xs with
  | nil => intro a b _ ha; simpa
  | cons x xs ih =>
      intro a b h ha
      simp only [List.foldl_cons]
      exact ih _ _ (fun r hr => h r (by simp [hr]))
        (max_le ha (h x (by simp)))

theorem widestRowWidth_le {xs : List JVal} {b : Nat}
    (h : ∀ x ∈ xs, rowWidth x ≤ b) : widestRowWidth xs ≤ b :=
  widestRowWidth_foldl_le xs 0 b h (Nat.zero_le b)

theorem widestRowWidth_const {xs : List JVal} {w : Nat} (hne : xs ≠ [])
    (h : ∀ x ∈ xs, rowWidth x = w) : widestRowWidth xs = w := by
  rcases List.exists_cons_of_ne_nil hne with ⟨y, ys, rfl⟩
  refine le_antisymm (widestRowWidth_le (fun x hx => le_of_eq (h x hx))) ?_
  calc w = rowWidth y := (h y (by simp)).symm
    _ ≤ _ := rowWidth_le_widest (by simp)

theorem rowAllEmpty_replicate_null (k : Nat) :
    rowAllEmpty (List.replicate k JVal.null) = true := by
  rw [rowAllEmpty, List.all_eq_true]
  intro x hx
  rw [List.eq_of_mem_replicate hx]
  rfl

theorem rowAllEmpty_take_false {r : List JVal} {n : Nat}
    (h : rowAllEmpty r = false) (hn : lastUsed r < n) :
    rowAllEmpty (r.take n) = false := by
  obtain ⟨h1, h2, _⟩ := lastUsed_spec h
  refine @rowAllEmpty_false_of_cell (r.take n) (lastUsed r) (by simp; omega) ?_
  rw [List.getD_eq_getElem?_getD, List.getElem?_take, if_pos hn,
    ← List.getD_eq_getElem?_getD]
  exact h2

theorem rowAllEmpty_append_nulls_false {r : List JVal} {k : Nat}
    (h : rowAllEmpty r = false) :
    rowAllEmpty (r ++ List.replicate k .null) = false := by
  rw [rowAllEmpty_append_nulls]
  exact h

/-- The shape of the pop loop's result: empty input, a single (possibly
empty) row, or a list whose head (the grid's LAST row) is not all-empty. -/
theorem dropEmptyRev_spec (rows : List (List JVal)) :
    dropEmptyRev rows = [] ∨ (∃ r, dropEmptyRev rows = [r]) ∨
      ∃ r t, dropEmptyRev rows = r :: t ∧ rowAllEmpty r = false := by
  induction rows with
  | nil => exact Or.inl rfl
  | cons r t ih =>
      cases t with
      | nil => exact Or.inr (Or.inl ⟨r, rfl⟩)
      | cons s t' =>
          simp only [dropEmptyRev]
          cases hemp : rowAllEmpty r with
          | true => simpa [hemp] using ih
          | false =>
              refine Or.inr (Or.inr ⟨r, s :: t', ?_, hemp⟩)
              simp

/-- The kept rows followed by the dropped (all-empty) rows reassemble the
original grid. -/
theorem dter_decomp (g : List (List JVal)) :
    ∃ dropped, g = dropTrailingEmptyRows g ++ dropped ∧
      ∀ r ∈ dropped, rowAllEmpty r = true := by
  obtain ⟨t, ht⟩ := dropEmptyRev_suffix g.reverse
  refine ⟨t.reverse, ?_, ?_⟩
  · conv_lhs => rw [← List.reverse_reverse g, ← ht]
    simp [dropTrailingEmptyRows]
  · intro r hr
    have hmem : r ∈ t := List.mem_reverse.mp hr
    have hlen : t.length = g.reverse.length - (dropEmptyRev g.reverse).length := by
      have hlen' := congrArg List.length ht
      simp only [List.length_append, List.length_reverse] at hlen'
      simp only [List.length_reverse]
      omega
    have htake : g.reverse.take
        (g.reverse.length - (dropEmptyRev g.reverse).length) = t := by
      rw [← hlen, ← ht, List.take_left]
    exact dropEmptyRev_dropped_empty g.reverse r (by rw [htake]; exact hmem)

theorem dter_ne_nil {g : List (List JVal)} (h : g ≠ []) :
    dropTrailingEmptyRows g ≠ [] := by
  unfold dropTrailingEmptyRows
  intro hc
  have : dropEmptyRev g.reverse = [] := by
    have := congrArg List.reverse hc
    simpa using this
  exact dropEmptyRev_ne_nil (by simpa using h) this

theorem dter_mem {g : List (List JVal)} {r : List JVal}
    (h : r ∈ dropTrailingEmptyRows g) : r ∈ g := by
  obtain ⟨dropped, hdec, _⟩ := dter_decomp g
  rw [hdec]
  exact List.mem_append_left _ h

theorem trimData_of_ne_nil {g : List (List JVal)} (h : g ≠ []) :
    trimData g = (dropTrailingEmptyRows g).map
      (fun row => row.take (maxUsedCol (dropTrailingEmptyRows g) + 1)) := by
  have hf : g.isEmpty = false := by
    cases g
    · exact absurd rfl h
    · rfl
  simp [trimData, hf]

/-- Serialization is stable: re-normalising a trimmed rectangular grid and
trimming again gives back the first trim.  `W` is the common row width of
the (normalised) grid. -/
theorem trim_renorm_trim (g : List (List JVal)) (W : Nat) (hW : 1 ≤ W)
    (hrect : ∀ r ∈ g, r.length = W) (hne : g ≠ []) (rowCount : Nat) :
    trimData (normaliseData (some (.arr ((trimData g).map JVal.arr))) rowCount)
      = trimData g := by
  have hKne : dropTrailingEmptyRows g ≠ [] := dter_ne_nil hne
  have hKmem : ∀ r ∈ dropTrailingEmptyRows g, r.length = W :=
    fun r hr => hrect r (dter_mem hr)
  set K := dropTrailingEmptyRows g with hKdef
  set M := maxUsedCol K with hMdef
  have hMW : M ≤ W - 1 :=
    maxUsedCol_le (fun r hr =>
      (lastUsed_le_pred_length r).trans (by rw [hKmem r hr]))
  have hR : trimData g = K.map (fun row => row.take (M + 1)) :=
    trimData_of_ne_nil hne
  set R := K.map (fun row => row.take (M + 1)) with hRdef
  have hRne : R ≠ [] := by
    rw [hRdef]
    simpa using hKne
  have hRlen : ∀ r ∈ R, r.length = M + 1 := by
    intro r hr
    rcases List.mem_map.mp hr with ⟨k, hk, rfl⟩
    have := hKmem k hk
    simp [List.length_take, this]
    omega
  have hRmax : maxUsedCol R = M := by
    rw [hRdef]
    exact maxUsedCol_map_congr _ _ (fun k hk =>
      lastUsed_take (Nat.lt_succ_of_le (lastUsed_le_maxUsedCol hk)))
  -- unfold the re-normalisation
  have hxsne : (R.map JVal.arr).isEmpty = false := by
    rcases List.exists_cons_of_ne_nil hRne with ⟨y, ys, hy⟩
    rw [hy]
    rfl
  have hxsw : widestRowWidth (R.map JVal.arr) = M + 1 := by
    refine widestRowWidth_const (by simpa using hRne) ?_
    intro x hx
    rcases List.mem_map.mp hx with ⟨r, hr, rfl⟩
    simpa [rowWidth] using hRlen r hr
  set mc := max MIN_COLS (M + 1) with hmcdef
  have hN : normaliseData (some (.arr (R.map JVal.arr))) rowCount
      = R.map (fun r => r ++ List.replicate (mc - (M + 1)) .null)
        ++ List.replicate (rowCount - R.length)
            (List.replicate mc .null) := by
    simp only [normaliseData, hxsne, if_neg Bool.false_ne_true, hxsw]
    rw [List.map_map]
    congr 1
    · refine List.map_congr_left ?_
      intro r hr
      simp only [Function.comp]
      rw [padRow_arr_eq]
      rw [hRlen r hr]
    · simp
  set P := R.map (fun r => r ++ List.replicate (mc - (M + 1)) .null)
    with hPdef
  have hPne : P ≠ [] := by
    rw [hPdef]
    simpa using hRne
  have hKrev : K.reverse = dropEmptyRev g.reverse := by
    rw [hKdef]
    simp [dropTrailingEmptyRows]
  have hPrev : dropEmptyRev P.reverse = P.reverse := by
    have hPrevEq : P.reverse = (K.reverse).map
        (fun k => (k.take (M + 1)) ++ List.replicate (mc - (M + 1)) .null) := by
      rw [hPdef, hRdef]
      rw [List.map_map, ← List.map_reverse]
      rfl
    rcases dropEmptyRev_spec g.reverse with h0 | ⟨r, h1⟩ | ⟨r, t, h2, hremp⟩
    · rw [← hKrev] at h0
      exact absurd (by simpa using congrArg List.reverse h0) hKne
    · rw [← hKrev] at h1
      rw [hPrevEq, h1]
      rfl
    · rw [← hKrev] at h2
      have hrK : r ∈ K := List.mem_reverse.mp (by rw [h2]; simp)
      have hlu : lastUsed r < M + 1 :=
        Nat.lt_succ_of_le (lastUsed_le_maxUsedCol hrK)
      have hhead : rowAllEmpty
          ((r.take (M + 1)) ++ List.replicate (mc - (M + 1)) .null) = false :=
        rowAllEmpty_append_nulls_false (rowAllEmpty_take_false hremp hlu)
      rw [hPrevEq, h2, List.map_cons]
      exact dropEmptyRev_of_head_not_empty hhead
  have hNne : (P ++ List.replicate (rowCount - R.length)
      (List.replicate mc .null)) ≠ [] := by
    simp [hPne]
  have hdrop : dropTrailingEmptyRows
      (P ++ List.replicate (rowCount - R.length) (List.replicate mc .null))
      = P := by
    unfold dropTrailingEmptyRows
    rw [List.reverse_append, List.reverse_replicate]
    rw [dropEmptyRev_append_empties _ _
      (fun e he => by
        rw [List.eq_of_mem_replicate he]
        exact rowAllEmpty_replicate_null mc)
      (by simpa using hPne)]
    rw [hPrev, List.reverse_reverse]
  have hPmax : maxUsedCol P = M := by
    rw [hPdef]
    rw [maxUsedCol_map_congr _ _ (fun r _ => lastUsed_append_nulls r _)]
    exact hRmax
  rw [hR]
  rw [hN, trimData_of_ne_nil hNne, hdrop, hPmax]
  rw [hPdef, List.map_map]
  conv_rhs => rw [← List.map_id R]
  refine List.map_congr_left ?_
  intro r hr
  simp only [Function.comp, id]
  rw [List.take_append_of_le_length (by rw [hRlen r hr])]
  rw [← hRlen r hr, List.take_length]

-- ────────────────────────────────────────────────────────────────────
--  Sheet objects (`src/unnamed/part_000`: parseSheets / serializeSheets)
-- ────────────────────────────────────────────────────────────────────

/-- Classification of a raw widget-attribute string by the guards of
`parseSheets` / `parseSheetJson`: the value is `undefined`/`null`/not a
string (`notAString`), empty or whitespace-only, rejected by `JSON.parse`,
or successfully decoded to a JSON value.  Distinct host strings whose
classification and decoded value agree behave identically in every
function modelled here. -/
inductive RawInput where
  | notAString
  | emptyOrWhitespace
  | invalidJson
  | parsed (v : JVal)

/-- The normalised sheet object produced by `normaliseSheet`
(`src/unnamed/part_000`).  Fields that `normaliseSheet` always coerces to a
fixed JavaScript type are given that type here (`orderIndex` is always a
number, `isEditable` a boolean, `data` a 2-D array, `colWidths` /
`rowHeights` / `mergedCells` arrays); `sheetId`, `sheetName` and `cellMeta`
keep whatever (non-nullish resp. object-typed) value the raw JSON held. -/
structure Sheet where
  sheetId : JVal
  sheetName : JVal
  orderIndex : Int
  isEditable : Bool
  data : List (List JVal)
  cellMeta : JVal
  colWidths : List JVal
  rowHeights : List JVal
  mergedCells : List JVal

/-- `buildEmptySheet(sheetId, sheetName, orderIndex)`: the `DEFAULT_SHEET`
template with identity fields and a fresh `EMPTY_SHEET_DATA()` grid. -/
def buildEmptySheet (sheetId sheetName : String) (orderIndex : Int) : Sheet :=
  { sheetId := .str sheetId
    sheetName := .str sheetName
    orderIndex := orderIndex
    isEditable := false
    data := EMPTY_SHEET_DATA
    cellMeta := .obj []
    colWidths := []
    rowHeights := []
    mergedCells := [] }

/-- `raw && typeof raw === "object"`: `null` is object-typed but falsy, so
exactly arrays and objects pass. -/
def isTruthyObject (v : JVal) : Bool :=
  jsTruthy v && (jsTypeof v == "object")

/-- `normaliseSheet(raw, index)` from `src/unnamed/part_000`. -/
def normaliseSheet (raw : JVal) (index : Nat) : Sheet :=
  if isTruthyObject raw then
    { sheetId := jsCoalesce (jsGet raw "sheetId")
        (.str ("sheet-" ++ toString index))
      sheetName := jsCoalesce (jsGet raw "sheetName")
        (.str ("Sheet" ++ toString (index + 1)))
      orderIndex :=
        match jsGet raw "orderIndex" with
        | some (.num n) => n
        | _ => (index : Int)
      isEditable :=
        match jsGet raw "isEditable" with
        | some (.bool true) => true
        | _ => false
      data := normaliseDataMS (jsGet raw "data")
      cellMeta :=
        match jsGet raw "cellMeta" with
        | some v => if isTruthyObject v then v else .obj []
        | none => .obj []
      colWidths :=
        match jsGet raw "colWidths" with
        | some (.arr xs) => xs
        | _ => []
      rowHeights :=
        match jsGet raw "rowHeights" with
        | some (.arr xs) => xs
        | _ => []
      mergedCells :=
        match jsGet raw "mergedCells" with
        | some (.arr xs) => xs
        | _ => [] }
  else
    buildEmptySheet ("sheet-" ++ toString index) ("Sheet" ++ toString (index + 1))
      index

/-- The sort comparator `(a, b) => a.orderIndex - b.orderIndex` as a
Boolean `≤` test; `Array.prototype.sort` is stable, modelled by
`List.mergeSort`. -/
def sheetLe (a b : Sheet) : Bool :=
  decide (a.orderIndex ≤ b.orderIndex)

/-- `parseSheets(jsonString)` from `src/unnamed/part_000`: empty/non-string
input, unparsable JSON and non-array JSON yield `[]`; otherwise each element
is normalised (with its index as fallback identity) and the result is
stable-sorted by `orderIndex`. -/
def parseSheets (input : RawInput) : List Sheet :=
  match input with
  | .notAString => []
  | .emptyOrWhitespace => []
  | .invalidJson => []
  | .parsed (.arr raws) =>
      ((raws.enum).map (fun p => normaliseSheet p.2 p.1)).mergeSort sheetLe
  | .parsed _ => []

/-- `serializeSheet(sheet)` from `src/unnamed/part_000` (the plain object
later passed to `JSON.stringify`): identity fields verbatim, `data` trimmed,
`cellMeta ?? {}` (the `?? []` fallbacks on the array-typed fields are
vacuous on a normalised sheet, whose fields already are arrays). -/
def serializeSheetVal (sheet : Sheet) : JVal :=
  .obj [("sheetId", sheet.sheetId),
        ("sheetName", sheet.sheetName),
        ("orderIndex", .num sheet.orderIndex),
        ("isEditable", .bool sheet.isEditable),
        ("data", .arr ((trimData sheet.data).map .arr)),
        ("cellMeta", jsCoalesce (some sheet.cellMeta) (.obj [])),
        ("colWidths", .arr sheet.colWidths),
        ("rowHeights", .arr sheet.rowHeights),
        ("mergedCells", .arr sheet.mergedCells)]

/-- `serializeSheets(sheets)` from `src/unnamed/part_000`, at the JSON-value
level: the array `JSON.stringify` receives.  `JSON.parse ∘ JSON.stringify`
is the identity on `JVal` (no `undefined` / non-finite numbers occur), so
composing `parseSheets` with this value models the string round trip. -/
def serializeSheetsVal (sheets : List Sheet) : JVal :=
  .arr (sheets.map serializeSheetVal)

/-- One sheet after a serialize → parse round trip: only `data` changes,
trimmed and then re-normalised. -/
def renormSheet (sheet : Sheet) : Sheet :=
  { sheet with
      data := normaliseDataMS (some (.arr ((trimData sheet.data).map .arr))) }

/-- Well-formedness of every sheet `parseSheets` emits: identity fields are
non-null, `cellMeta` is object-typed and truthy, and the grid is a nonempty
rectangle of width `≥ 1`. -/
def SheetWF (sheet : Sheet) : Prop :=
  sheet.sheetId ≠ .null ∧ sheet.sheetName ≠ .null ∧
  isTruthyObject sheet.cellMeta = true ∧ sheet.data ≠ [] ∧
  ∃ W, 1 ≤ W ∧ ∀ r ∈ sheet.data, r.length = W

theorem isJsNull_eq_false {v : JVal} (h : v ≠ .null) : isJsNull v = false := by
  cases v with
  | null => exact absurd rfl h
  | bool b => rfl
  | num n => rfl
  | str s => rfl
  | arr xs => rfl
  | obj f => rfl

theorem ne_null_of_truthyObject {v : JVal} (h : isTruthyObject v = true) :
    v ≠ .null := by
  intro hv
  subst hv
  exact Bool.noConfusion h

theorem jsCoalesce_of_ne_null {v : JVal} (d : JVal) (h : v ≠ .null) :
    jsCoalesce (some v) d = v := by
  simp [jsCoalesce, isJsNull_eq_false h]

/-- Parsing a serialized sheet back recovers the sheet, with its data
trimmed and re-normalised; all other fields round-trip unchanged. -/
theorem normaliseSheet_serializeSheetVal (sh : Sheet) (i : Nat)
    (hwf : SheetWF sh) :
    normaliseSheet (serializeSheetVal sh) i = renormSheet sh := by
  obtain ⟨hid, hname, hmeta, -, -⟩ := hwf
  have htrue : isTruthyObject (serializeSheetVal sh) = true := rfl
  have hgid : jsGet (serializeSheetVal sh) "sheetId" = some sh.sheetId := rfl
  have hgname : jsGet (serializeSheetVal sh) "sheetName" = some sh.sheetName :=
    rfl
  have hgord : jsGet (serializeSheetVal sh) "orderIndex"
      = some (.num sh.orderIndex) := rfl
  have hged : jsGet (serializeSheetVal sh) "isEditable"
      = some (.bool sh.isEditable) := rfl
  have hgdata : jsGet (serializeSheetVal sh) "data"
      = some (.arr ((trimData sh.data).map .arr)) := rfl
  have hgmeta : jsGet (serializeSheetVal sh) "cellMeta"
      = some (jsCoalesce (some sh.cellMeta) (.obj [])) := rfl
  have hgcw : jsGet (serializeSheetVal sh) "colWidths"
      = some (.arr sh.colWidths) := rfl
  have hgrh : jsGet (serializeSheetVal sh) "rowHeights"
      = some (.arr sh.rowHeights) := rfl
  have hgmc : jsGet (serializeSheetVal sh) "mergedCells"
      = some (.arr sh.mergedCells) := rfl
  have hmetaval : jsCoalesce (some sh.cellMeta) (.obj []) = sh.cellMeta :=
    jsCoalesce_of_ne_null _ (ne_null_of_truthyObject hmeta)
  rw [normaliseSheet, if_pos htrue]
  rw [hgid, hgname, hgord, hged, hgdata, hgmeta, hgcw, hgrh, hgmc, hmetaval]
  rw [jsCoalesce_of_ne_null _ hid, jsCoalesce_of_ne_null _ hname]
  cases hed : sh.isEditable with
  | true =>
      simp only [renormSheet, if_pos hmeta, normaliseDataMS]
      cases sh
      simp_all [renormSheet]
  | false =>
      simp only [renormSheet, if_pos hmeta, normaliseDataMS]
      cases sh
      simp_all [renormSheet]

theorem jsCoalesce_ne_null {x : Option JVal} {d : JVal} (hd : d ≠ .null) :
    jsCoalesce x d ≠ .null := by
  match x with
  | none => exact hd
  | some v =>
      simp only [jsCoalesce]
      split
      · exact hd
      · next hv =>
          intro hc
          subst hc
          simp [isJsNull] at hv

theorem normaliseDataMS_ne_nil (raw : Option JVal) : normaliseDataMS raw ≠ [] := by
  have := normaliseData_length raw MIN_ROWS
  intro hc
  rw [normaliseDataMS] at hc
  rw [hc] at this
  simp [MIN_ROWS] at this

theorem sheetWF_normaliseSheet (raw : JVal) (i : Nat) :
    SheetWF (normaliseSheet raw i) := by
  unfold normaliseSheet
  split
  · refine ⟨?_, ?_, ?_, ?_, targetCols (jsGet raw "data"), ?_, ?_⟩
    · exact jsCoalesce_ne_null (by intro h; exact JVal.noConfusion h)
    · exact jsCoalesce_ne_null (by intro h; exact JVal.noConfusion h)
    · simp only
      split
      · next v _ =>
          split
          · next hv => exact hv
          · rfl
      · rfl
    · exact normaliseDataMS_ne_nil _
    · have := MIN_COLS_le_targetCols (jsGet raw "data")
      simp only [MIN_COLS] at this
      omega
    · exact normaliseData_row_length _ _
  · refine ⟨?_, ?_, ?_, ?_, MIN_COLS, by simp [MIN_COLS], ?_⟩
    · intro h; exact JVal.noConfusion h
    · intro h; exact JVal.noConfusion h
    · rfl
    · simp [buildEmptySheet, EMPTY_SHEET_DATA, MIN_ROWS]
    · intro r hr
      have := List.eq_of_mem_replicate (by simpa [buildEmptySheet, EMPTY_SHEET_DATA] using hr)
      rw [this]
      simp

theorem parseSheets_wf {input : RawInput} {sh : Sheet}
    (h : sh ∈ parseSheets input) : SheetWF sh := by
  match input with
  | .notAString => cases h
  | .emptyOrWhitespace => cases h
  | .invalidJson => cases h
  | .parsed .null => cases h
  | .parsed (.bool b) => cases h
  | .parsed (.num n) => cases h
  | .parsed (.str s) => cases h
  | .parsed (.obj f) => cases h
  | .parsed (.arr raws) =>
      have h' := List.mem_mergeSort.mp h
      rcases List.mem_map.mp h' with ⟨p, _, rfl⟩
      exact sheetWF_normaliseSheet p.2 p.1

theorem sheetLe_trans : ∀ (a b c : Sheet),
    sheetLe a b = true → sheetLe b c = true → sheetLe a c = true := by
  intro a b c hab hbc
  simp only [sheetLe, decide_eq_true_eq] at *
  omega

theorem sheetLe_total : ∀ (a b : Sheet),
    (sheetLe a b || sheetLe b a) = true := by
  intro a b
  simp only [sheetLe]
  rcases le_total a.orderIndex b.orderIndex with h | h <;> simp [h]

theorem parseSheets_sorted (input : RawInput) :
    (parseSheets input).Pairwise (fun a b => sheetLe a b = true) := by
  match input with
  | .notAString => exact List.Pairwise.nil
  | .emptyOrWhitespace => exact List.Pairwise.nil
  | .invalidJson => exact List.Pairwise.nil
  | .parsed .null => exact List.Pairwise.nil
  | .parsed (.bool b) => exact List.Pairwise.nil
  | .parsed (.num n) => exact List.Pairwise.nil
  | .parsed (.str s) => exact List.Pairwise.nil
  | .parsed (.obj f) => exact List.Pairwise.nil
  | .parsed (.arr raws) =>
      exact List.sorted_mergeSort sheetLe_trans sheetLe_total _

theorem enumFrom_map_snd {α β : Type} (g : α → β) :
    ∀ (n : Nat) (l : List α),
      (List.enumFrom n l).map (fun p => g p.2) = l.map g := by
  intro n l
  induction l generalizing n with
  | nil => rfl
  | cons x l ih => simp [List.enumFrom, ih]

/-- Parsing the serialization of a well-formed sorted sheet list yields the
same list with each sheet's data trimmed and re-normalised. -/
theorem parse_of_serialize {s : List Sheet}
    (hwf : ∀ sh ∈ s, SheetWF sh)
    (hsorted : s.Pairwise (fun a b => sheetLe a b = true)) :
    parseSheets (.parsed (serializeSheetsVal s)) = s.map renormSheet := by
  have hmapped : ((s.map serializeSheetVal).enum).map
      (fun p => normaliseSheet p.2 p.1) = s.map renormSheet := by
    rw [List.enum_map, List.map_map]
    have : ∀ p ∈ s.enum,
        ((fun p : Nat × JVal => normaliseSheet p.2 p.1) ∘
          Prod.map id serializeSheetVal) p = renormSheet p.2 := by
      intro p hp
      have hwfp : SheetWF p.2 := hwf p.2 (List.snd_mem_of_mem_enum hp)
      simp only [Function.comp, Prod.map]
      exact normaliseSheet_serializeSheetVal p.2 p.1 hwfp
    rw [List.map_congr_left this]
    rw [show s.enum = List.enumFrom 0 s from rfl]
    exact enumFrom_map_snd renormSheet 0 s
  have hsorted' : (s.map renormSheet).Pairwise
      (fun a b => sheetLe a b = true) := by
    rw [List.pairwise_map]
    exact hsorted.imp (fun h => h)
  simp only [parseSheets, serializeSheetsVal]
  rw [hmapped]
  exact List.mergeSort_of_sorted hsorted'

theorem serializeSheetVal_renorm {sh : Sheet} (hwf : SheetWF sh) :
    serializeSheetVal (renormSheet sh) = serializeSheetVal sh := by
  obtain ⟨-, -, -, hne, W, hW, hrect⟩ := hwf
  have hdata :
      trimData (normaliseDataMS (some (.arr ((trimData sh.data).map .arr))))
        = trimData sh.data := by
    rw [normaliseDataMS]
    exact trim_renorm_trim sh.data W hW hrect hne MIN_ROWS
  simp [serializeSheetVal, renormSheet, hdata]

/-- C4 (claim theorem below builds on this): serializing, re-parsing and
serializing again is the identity on the serialized document. -/
theorem serialize_parse_serialize {s : List Sheet}
    (hwf : ∀ sh ∈ s, SheetWF sh)
    (hsorted : s.Pairwise (fun a b => sheetLe a b = true)) :
    serializeSheetsVal (parseSheets (.parsed (serializeSheetsVal s)))
      = serializeSheetsVal s := by
  rw [parse_of_serialize hwf hsorted]
  simp only [serializeSheetsVal, List.map_map]
  congr 1
  refine List.map_congr_left ?_
  intro sh hsh
  simp only [Function.comp]
  exact serializeSheetVal_renorm (hwf sh hsh)

/-- C4.  For any host input, let `s = parseSheets input` be the normalised
sheet array.  (1) Re-parsing `serializeSheets s` yields `s` itself except
that each sheet's grid is trimmed of trailing empty rows/columns and
re-padded to the configured minimums (`renormSheet`); every other field is
unchanged, and the order is unchanged.  (2) Hence
`serializeSheets (parseSheets (serializeSheets s)) = serializeSheets s`. -/
theorem parseSheets_serializeSheets_roundtrip (input : RawInput) :
    parseSheets (.parsed (serializeSheetsVal (parseSheets input)))
      = (parseSheets input).map renormSheet ∧
    serializeSheetsVal
        (parseSheets (.parsed (serializeSheetsVal (parseSheets input))))
      = serializeSheetsVal (parseSheets input) :=
  ⟨parse_of_serialize (fun _ hsh => parseSheets_wf hsh)
      (parseSheets_sorted input),
    serialize_parse_serialize (fun _ hsh => parseSheets_wf hsh)
      (parseSheets_sorted input)⟩

-- ── padding invariant (C5) and cell preservation (C10) ──

/-- Width of the widest row present in the raw `data` value (`0` when no
row is present). -/
def inputWidest (raw : Option JVal) : Nat :=
  match raw with
  | some (.arr xs) => widestRowWidth xs
  | _ => 0

theorem targetCols_eq_max (raw : Option JVal) :
    targetCols raw = max MIN_COLS (inputWidest raw) := by
  match raw with
  | none => simp [targetCols, inputWidest]
  | some .null => simp [targetCols, inputWidest]
  | some (.bool b) => simp [targetCols, inputWidest]
  | some (.num n) => simp [targetCols, inputWidest]
  | some (.str s) => simp [targetCols, inputWidest]
  | some (.obj f) => simp [targetCols, inputWidest]
  | some (.arr xs) => simp [targetCols, inputWidest]

theorem getD_replicate_null (n j : Nat) :
    (List.replicate n JVal.null).getD j JVal.null = JVal.null := by
  rw [List.getD_eq_getElem?_getD, List.getElem?_replicate]
  split <;> rfl

/-- Row `i` of the normalised grid for any present input row value. -/
theorem normaliseData_row_get (xs : List JVal) (rowCount i : Nat)
    (v : JVal) (hi : xs[i]? = some v) :
    (normaliseData (some (.arr xs)) rowCount)[i]? =
      some (padRow (targetCols (some (.arr xs))) v) := by
  have hlt : i < xs.length := by
    by_contra h
    rw [List.getElem?_eq_none (by omega)] at hi
    exact Option.noConfusion hi
  have hne : xs.isEmpty = false := by
    cases xs
    · simp at hlt
    · rfl
  simp only [normaliseData, hne, if_neg Bool.false_ne_true]
  rw [List.getElem?_append, if_pos (by simpa using hlt)]
  rw [List.getElem?_map, hi]
  simp [targetCols]

/-- Every cell the input did not supply is `null` in the normalised grid. -/
theorem normaliseData_added_null (raw : Option JVal) (rowCount i j : Nat)
    (hi : i < (normaliseData raw rowCount).length)
    (hj : j < targetCols raw)
    (hadd : inputRowLen raw i ≤ j) :
    ((normaliseData raw rowCount).getD i []).getD j JVal.null = JVal.null := by
  have hbase : ∀ k : Nat, k < rowCount →
      ((List.replicate rowCount (List.replicate MIN_COLS JVal.null)).getD k []).getD
        j JVal.null = JVal.null := by
    intro k hk
    have h1 : (List.replicate rowCount
        (List.replicate MIN_COLS JVal.null)).getD k []
        = List.replicate MIN_COLS JVal.null := by
      rw [List.getD_eq_getElem?_getD, List.getElem?_replicate, if_pos hk]
      rfl
    rw [h1]
    exact getD_replicate_null _ _
  match raw with
  | none => exact hbase i (by simpa [normaliseData] using hi)
  | some .null => exact hbase i (by simpa [normaliseData] using hi)
  | some (.bool b) => exact hbase i (by simpa [normaliseData] using hi)
  | some (.num n) => exact hbase i (by simpa [normaliseData] using hi)
  | some (.str s) => exact hbase i (by simpa [normaliseData] using hi)
  | some (.obj f) => exact hbase i (by simpa [normaliseData] using hi)
  | some (.arr xs) =>
      by_cases hemp : xs.isEmpty
      · have hrw : normaliseData (some (.arr xs)) rowCount
            = List.replicate rowCount (List.replicate MIN_COLS JVal.null) := by
          simp [normaliseData, hemp]
        rw [hrw] at hi ⊢
        exact hbase i (by simpa using hi)
      · by_cases hrow : i < xs.length
        · cases hxi : xs[i]? with
          | none =>
              have hcontra : xs.length ≤ i := by
                by_contra hc
                rw [List.getElem?_eq_getElem (by omega)] at hxi
                exact Option.noConfusion hxi
              omega
          | some v =>
              have hrowval : (normaliseData (some (.arr xs)) rowCount).getD i []
                  = padRow (targetCols (some (.arr xs))) v := by
                rw [List.getD_eq_getElem?_getD,
                  normaliseData_row_get xs rowCount i v hxi]
                rfl
              rw [hrowval]
              cases v with
              | arr cells =>
                  have hcl : inputRowLen (some (.arr xs)) i = cells.length := by
                    simp [inputRowLen, hxi]
                  rw [hcl] at hadd
                  rw [padRow_arr_eq]
                  rw [List.getD_eq_getElem?_getD, List.getElem?_append,
                    if_neg (by omega), List.getElem?_replicate]
                  split <;> rfl
              | null => exact getD_replicate_null _ _
              | bool b => exact getD_replicate_null _ _
              | num n => exact getD_replicate_null _ _
              | str s => exact getD_replicate_null _ _
              | obj f => exact getD_replicate_null _ _
        · have hxs : xs ≠ [] := by
            cases xs
            · simp at hemp
            · simp
          have hrowval : (normaliseData (some (.arr xs)) rowCount).getD i []
              = List.replicate (targetCols (some (.arr xs))) JVal.null := by
            rw [List.getD_eq_getElem?_getD,
              normaliseData_row_appended xs rowCount i hxs (by omega) hi]
            rfl
          rw [hrowval]
          exact getD_replicate_null _ _

/-- C5: for every raw `data` value, the grid produced by the multi-sheet
`normaliseData` has at least `MIN_ROWS = 50` rows, every row has the same
length, namely `max(MIN_COLS = 26, width of the widest row present in the
input)`, and every cell not supplied by the input is `null`. -/
theorem normaliseData_padding_invariant (raw : Option JVal) :
    MIN_ROWS ≤ (normaliseDataMS raw).length ∧
    (∀ row ∈ normaliseDataMS raw,
      row.length = max MIN_COLS (inputWidest raw)) ∧
    (∀ i j, i < (normaliseDataMS raw).length →
      j < max MIN_COLS (inputWidest raw) → inputRowLen raw i ≤ j →
      ((normaliseDataMS raw).getD i []).getD j JVal.null = JVal.null) := by
  refine ⟨normaliseData_length raw MIN_ROWS, ?_, ?_⟩
  · intro row hrow
    rw [← targetCols_eq_max]
    exact normaliseData_row_length raw MIN_ROWS row hrow
  · intro i j hi hj hadd
    exact normaliseData_added_null raw MIN_ROWS i j hi
      (by rw [targetCols_eq_max]; exact hj) hadd

/-- Witness for C5 at the input `[["x"]]`: fifty rows, and the padded cell
`(0, 1)` is `null`. -/
theorem normaliseData_padding_invariant_witness :
    MIN_ROWS ≤ (normaliseDataMS (some (.arr [.arr [.str "x"]]))).length ∧
    ((normaliseDataMS (some (.arr [.arr [.str "x"]]))).getD 0 []).getD 1
      JVal.null = JVal.null := by
  have h := normaliseData_padding_invariant (some (.arr [.arr [.str "x"]]))
  exact ⟨h.1, h.2.2 0 1
    (Nat.lt_of_lt_of_le (by decide) h.1)
    (by decide)
    (by decide)⟩

/-- C10: parsing preserves every supplied cell in place — when input row `i`
is an array `cells`, row `i` of the normalised grid is exactly `cells`
right-padded with `null`s (so `grid[i][j] = cells[j]` for every
`j < cells.length`), never truncated, reordered or coerced. -/
theorem normaliseData_preserves_cells (xs : List JVal) (rowCount i : Nat)
    (cells : List JVal) (hi : xs[i]? = some (.arr cells)) :
    i < (normaliseData (some (.arr xs)) rowCount).length ∧
    (normaliseData (some (.arr xs)) rowCount).getD i [] =
      cells ++ List.replicate
        (targetCols (some (.arr xs)) - cells.length) JVal.null ∧
    ∀ j, j < cells.length →
      ((normaliseData (some (.arr xs)) rowCount).getD i []).getD j JVal.null
        = cells.getD j JVal.null := by
  have hlt : i < xs.length := by
    by_contra h
    rw [List.getElem?_eq_none (by omega)] at hi
    exact Option.noConfusion hi
  have hne : xs.isEmpty = false := by
    cases xs
    · simp at hlt
    · rfl
  have hlength : (normaliseData (some (.arr xs)) rowCount).length
      = xs.length + (rowCount - xs.length) := by
    simp only [normaliseData, hne, if_neg Bool.false_ne_true]
    simp
  have hrowval : (normaliseData (some (.arr xs)) rowCount).getD i []
      = cells ++ List.replicate
          (targetCols (some (.arr xs)) - cells.length) JVal.null := by
    rw [List.getD_eq_getElem?_getD,
      normaliseData_row_of_present xs rowCount i cells hi]
    rfl
  refine ⟨by omega, hrowval, ?_⟩
  intro j hj
  rw [hrowval, List.getD_eq_getElem?_getD, List.getElem?_append, if_pos hj,
    ← List.getD_eq_getElem?_getD]

/-- Witness for C10 at input `[["x", 7]]`, row 0, column 1. -/
theorem normaliseData_preserves_cells_witness :
    ((normaliseData (some (.arr [.arr [.str "x", .num 7]])) 50).getD 0
      []).getD 1 JVal.null = JVal.num 7 := by
  have h := normaliseData_preserves_cells [.arr [.str "x", .num 7]] 50 0
    [.str "x", .num 7] rfl
  rw [h.2.2 1 (by decide)]
  rfl

/-- C6: `trimData` keeps at least one row; on a nonempty grid it keeps
exactly the leading rows that survive popping trailing entirely-empty rows
(a cell is empty when it is `null` or `""`; `undefined` does not occur in
JSON-derived grids), truncates each surviving row to
`maxUsedCol + 1` where `maxUsedCol` is the highest non-empty column index
across the surviving rows, and every dropped row was entirely empty; and
concretely `trimData [["a", null], [null, null]] = [["a"]]`. -/
theorem trimData_trims_only_trailing :
    (∀ g : List (List JVal),
      1 ≤ (trimData g).length ∧
      (g ≠ [] →
        trimData g = (g.take (dropTrailingEmptyRows g).length).map
            (fun row => row.take (maxUsedCol (dropTrailingEmptyRows g) + 1)) ∧
        ∀ i, (dropTrailingEmptyRows g).length ≤ i → i < g.length →
          rowAllEmpty (g.getD i []) = true)) ∧
    trimData [[.str "a", .null], [.null, .null]] = [[.str "a"]] := by
  constructor
  · intro g
    constructor
    · by_cases hg : g = []
      · subst hg
        rfl
      · rw [trimData_of_ne_nil hg]
        have := dter_ne_nil hg
        simp only [List.length_map]
        exact List.length_pos.mpr this
    · intro hg
      obtain ⟨dropped, hdec, hemp⟩ := dter_decomp g
      set K := dropTrailingEmptyRows g with hKdef
      have htake : g.take K.length = K := by
        conv_lhs => rw [hdec]
        exact List.take_left _ _
      refine ⟨by rw [trimData_of_ne_nil hg, htake], ?_⟩
      intro i hik hig
      have hlen : g.length = K.length + dropped.length := by
        rw [hdec]
        simp
      have hdget : g.getD i [] = dropped.getD (i - K.length) [] := by
        conv_lhs => rw [hdec]
        rw [List.getD_eq_getElem?_getD, List.getElem?_append,
          if_neg (by omega), ← List.getD_eq_getElem?_getD]
      rw [hdget]
      have hin : i - K.length < dropped.length := by
        omega
      refine hemp _ ?_
      rw [List.getD_eq_getElem?_getD, List.getElem?_eq_getElem hin]
      exact List.getElem_mem _
  · rfl

/-- Witness for C6 at the grid `[["a", null], [null, null]]`: the single
dropped row (index 1) was entirely empty. -/
theorem trimData_trims_only_trailing_witness :
    rowAllEmpty (([[JVal.str "a", JVal.null],
      [JVal.null, JVal.null]] : List (List JVal)).getD 1 []) = true := by
  have h := trimData_trims_only_trailing.1
    [[JVal.str "a", JVal.null], [JVal.null, JVal.null]]
  exact (h.2 (by simp)).2 1 (by rfl) (by decide)

-- ────────────────────────────────────────────────────────────────────
--  Single-sheet dataService (`src/src/services/dataService.js`)
-- ────────────────────────────────────────────────────────────────────

/-- JavaScript `String(v)` for a non-`undefined` value (used by the
`rowLabels` normalisation `String(l ?? "")`): strings verbatim, numbers and
booleans printed, `null` prints `"null"`, arrays join their elements with
`","` (empty string for `null` elements), plain objects print
`"[object Object]"`. -/
def jsToString : JVal → String
  | .null => "null"
  | .bool b => cond b "true" "false"
  | .num n => toString n
  | .str s => s
  | .obj _ => "[object Object]"
  | .arr xs => String.intercalate ","
      (xs.attach.map (fun x =>
        match x with
        | ⟨.null, _⟩ => ""
        | ⟨v, _⟩ => jsToString v))

/-- The widget state object `parseSheetJson` produces
(`data/columns/rowLabels/cellMeta/colWidths/rowHeights/mergedCells`). -/
structure SheetData where
  data : List (List JVal)
  columns : List JVal
  rowLabels : List String
  cellMeta : JVal
  colWidths : List JVal
  rowHeights : List JVal
  mergedCells : List JVal

/-- `buildEmptySheetData(rowCount)`: `rowCount × MIN_COLS` nulls and empty
metadata. -/
def buildEmptySheetData (rowCount : Nat) : SheetData :=
  { data := List.replicate rowCount (List.replicate MIN_COLS .null)
    columns := []
    rowLabels := []
    cellMeta := .obj []
    colWidths := []
    rowHeights := []
    mergedCells := [] }

/-- `parseSheetJson(jsonString, rowCount)` from
`src/src/services/dataService.js`.  The shape guard is
`typeof raw !== "object" || Array.isArray(raw)`; since
`typeof null === "object"` and `Array.isArray(null) === false`, a JSON
`null` passes the guard and the subsequent property read `raw.data` throws
a `TypeError`, modelled as `Except.error`. -/
def parseSheetJson (input : RawInput) (rowCount : Nat) :
    Except String SheetData :=
  match input with
  | .notAString => .ok (buildEmptySheetData rowCount)
  | .emptyOrWhitespace => .ok (buildEmptySheetData rowCount)
  | .invalidJson => .ok (buildEmptySheetData rowCount)
  | .parsed v =>
      if jsTypeof v != "object" || isJsArray v then
        .ok (buildEmptySheetData rowCount)
      else
        match v with
        | .obj _ =>
            .ok { data := normaliseData (jsGet v "data") rowCount
                  columns :=
                    match jsGet v "columns" with
                    | some (.arr xs) => xs
                    | _ => []
                  rowLabels :=
                    match jsGet v "rowLabels" with
                    | some (.arr xs) =>
                        xs.map (fun l => jsToString (jsCoalesce (some l) (.str "")))
                    | _ => []
                  cellMeta :=
                    match jsGet v "cellMeta" with
                    | some m => if isTruthyObject m then m else .obj []
                    | none => .obj []
                  colWidths :=
                    match jsGet v "colWidths" with
                    | some (.arr xs) => xs
                    | _ => []
                  rowHeights :=
                    match jsGet v "rowHeights" with
                    | some (.arr xs) => xs
                    | _ => []
                  mergedCells :=
                    match jsGet v "mergedCells" with
                    | some (.arr xs) => xs
                    | _ => [] }
        | _ => .error "TypeError: Cannot read properties of null"

-- ────────────────────────────────────────────────────────────────────
--  mendixBridge (`src/src/services/mendixBridge.js`)
-- ────────────────────────────────────────────────────────────────────

/-- A Mendix `EditableValue` as `triggerSheetChange` observes it: its
`status` string, whether `setValue` is a function, and whether calling
`setValue` throws. -/
structure MxAttr where
  status : String
  hasSetValue : Bool
  setValueThrows : Bool

/-- A Mendix action object `{ canExecute, execute }`; `executeThrows`
models `execute()` raising. -/
structure MxAction where
  canExecute : Bool
  executeThrows : Bool

/-- Observable outcome of one `triggerSheetChange` call: the returned
boolean, the value held by the attribute after the call (`none` when no
write happened), and whether `execute()` was invoked. -/
structure SaveOutcome where
  result : Bool
  written : Option String
  executed : Bool

/-- `triggerSheetChange(sheetsJsonAttr, serializedJson, onSheetChange)`
from `src/src/services/mendixBridge.js`, branch for branch: a missing
attribute, a status other than `"available"`, a missing `setValue` or a
throwing `setValue` abort before the commit step; after a successful write,
a missing action, `canExecute === false` or a throwing `execute()` return
`false` but leave the written value in place; only a completed
write-then-commit returns `true`. -/
def triggerSheetChange (sheetsJsonAttr : Option MxAttr)
    (serializedJson : String) (onSheetChange : Option MxAction) :
    SaveOutcome :=
  match sheetsJsonAttr with
  | none => ⟨false, none, false⟩
  | some attr =>
      if attr.status != "available" then ⟨false, none, false⟩
      else if !attr.hasSetValue then ⟨false, none, false⟩
      else if attr.setValueThrows then ⟨false, none, false⟩
      else
        match onSheetChange with
        | none => ⟨false, some serializedJson, false⟩
        | some act =>
            if !act.canExecute then ⟨false, some serializedJson, false⟩
            else if act.executeThrows then ⟨false, some serializedJson, true⟩
            else ⟨true, some serializedJson, true⟩

/-- The write step succeeds iff the attribute is present, `"available"`,
writable and `setValue` does not throw. -/
def writeOk (sheetsJsonAttr : Option MxAttr) : Bool :=
  match sheetsJsonAttr with
  | none => false
  | some attr =>
      attr.status == "available" && attr.hasSetValue && !attr.setValueThrows

/-- The commit step succeeds iff the action is present, executable and does
not throw. -/
def commitOk (onSheetChange : Option MxAction) : Bool :=
  match onSheetChange with
  | none => false
  | some act => act.canExecute && !act.executeThrows

/-- `execute()` is invoked iff the write succeeded and the action is
present with `canExecute` (it is invoked even when it then throws). -/
def commitInvoked (onSheetChange : Option MxAction) : Bool :=
  match onSheetChange with
  | none => false
  | some act => act.canExecute

-- ────────────────────────────────────────────────────────────────────
--  useWorkbookState (`src/src/hooks/useWorkbookState.js`)
-- ────────────────────────────────────────────────────────────────────

/-- `clampIndex(value, min, max)` from the shared helpers
(`Math.min(Math.max(value, min), max)`). -/
def clampIndex (value lo hi : Nat) : Nat :=
  min (max value lo) hi

/-- The state owned by `useWorkbookState`: the two `useState` pairs, the
loading/error state and the two refs.  A host `sheetsJson` string is
represented by an abstract identifier (`Nat`); the hook compares prop
strings only with `===`, modelled by identifier equality, and parses them
through a fixed decoding `decode : Nat → RawInput` (distinct strings get
distinct identifiers). -/
structure WorkbookState where
  sheets : List Sheet
  activeSheetIndex : Nat
  isLoading : Bool
  parseError : Option String
  lastLoadedJson : Option Nat
  hasPendingEdits : Bool

/-- Hook state after mount, before the first effect run. -/
def initialWorkbookState : WorkbookState :=
  { sheets := []
    activeSheetIndex := 0
    isLoading := true
    parseError := none
    lastLoadedJson := none
    hasPendingEdits := false }

/-- `markPendingEdits()`: sets the local-edits guard. -/
def markPendingEdits (st : WorkbookState) : WorkbookState :=
  { st with hasPendingEdits := true }

/-- `clearPendingEdits()`: clears the guard and resets the last-loaded
marker so the next host refresh is treated as new. -/
def clearPendingEdits (st : WorkbookState) : WorkbookState :=
  { st with hasPendingEdits := false, lastLoadedJson := none }

/-- The `useEffect([sheetsJsonProp])` body of `useWorkbookState`: a missing
prop only sets loading; an unchanged prop string and the set guard both
skip the reload; otherwise the prop is parsed into `sheets`, the active
index is clamped and the last-loaded marker updated.  (`parseSheets` is
total, so the `catch` branch of the source is unreachable.) -/
def syncEffect (decode : Nat → RawInput) (st : WorkbookState)
    (prop : Option Nat) : WorkbookState :=
  match prop with
  | none => { st with isLoading := true }
  | some s =>
      if st.lastLoadedJson = some s then { st with isLoading := false }
      else if st.hasPendingEdits then { st with isLoading := false }
      else
        let parsed := parseSheets (decode s)
        { st with
            sheets := parsed
            activeSheetIndex :=
              clampIndex st.activeSheetIndex 0 (max 0 (parsed.length - 1))
            lastLoadedJson := some s
            parseError := none
            isLoading := false }

-- ────────────────────────────────────────────────────────────────────
--  useAutoSave (`src/unnamed/part_003`)
-- ────────────────────────────────────────────────────────────────────

/-- The observable auto-save state: `savingStatus`, the `isInitialLoad`
ref, and whether a debounced save is scheduled. -/
structure AutoSaveState where
  savingStatus : String
  isInitialLoad : Bool
  debouncePending : Bool

/-- State after mount: status `"idle"`, first load not yet seen. -/
def initialAutoSaveState : AutoSaveState :=
  { savingStatus := "idle", isInitialLoad := true, debouncePending := false }

/-- The two `useEffect([sheets])` bodies of `useAutoSave`, run in
declaration order in the same commit whenever the `sheets` state changes
(and on mount).  Effect one clears the `isInitialLoad` ref once a nonempty
`sheets` arrives; effect two then reads the ref — already cleared by
effect one in the same run — and, unless it (still) reads `true` or
`sheets` is empty, sets the status to `"saving"` and (re)starts the
debounce timer. -/
def autoSaveOnSheetsChange (st : AutoSaveState) (numSheets : Nat) :
    AutoSaveState :=
  let st1 :=
    if numSheets > 0 && st.isInitialLoad then
      { st with isInitialLoad := false }
    else st
  if st1.isInitialLoad then st1
  else if numSheets == 0 then st1
  else { st1 with savingStatus := "saving", debouncePending := true }

-- ────────────────────────────────────────────────────────────────────
--  Permission resolvers
--  (`src/unnamed/part_002` usePermissions; `src/unnamed/part_005`
--   WorkbookContainer identity-based variant)
-- ────────────────────────────────────────────────────────────────────

/-- `canEditSheet(sheetIsEditable)` from `usePermissions`
(`src/unnamed/part_002`): the workbook-level read-only flag is evaluated
first and overrides everything; otherwise the sheet-level flag decides. -/
def canEditSheet (workbookIsReadOnly : Bool) (sheetIsEditable : Bool) : Bool :=
  if workbookIsReadOnly then false
  else sheetIsEditable == true

/-- `isUserMatch` from `src/unnamed/part_005`: both ids non-empty (string
truthiness) and trimmed-equal. -/
def isUserMatch (currentUserValue accessUserValue : String) : Bool :=
  currentUserValue != "" && accessUserValue != "" &&
    currentUserValue.trim == accessUserValue.trim

/-- `canEditCells` from `src/unnamed/part_005`. -/
def canEditCells (isAdminValue : Bool)
    (currentUserValue accessUserValue permissionValue : String) : Bool :=
  isAdminValue ||
    (isUserMatch currentUserValue accessUserValue &&
      permissionValue == "Edit")

/-- `canEditColumns` from `src/unnamed/part_005`. -/
def canEditColumns (isAdminValue : Bool) : Bool :=
  isAdminValue

-- ────────────────────────────────────────────────────────────────────
--  Claim theorems (state machine, bridge, permissions)
-- ────────────────────────────────────────────────────────────────────

/-- C1: while the local-edits guard is set (from `markPendingEdits` until
`clearPendingEdits`), every host-driven run of the sync effect leaves the
in-memory sheets model unchanged — and the effect itself never changes the
guard, so this holds across any number of host refreshes; after
`clearPendingEdits`, the next host-driven change delivering a value
replaces the model with the parse of that value (the cleared last-loaded
marker makes any delivered value count as differing). -/
theorem workbookState_guard_correctness :
    (∀ (decode : Nat → RawInput) (st : WorkbookState) (prop : Option Nat),
      (syncEffect decode (markPendingEdits st) prop).sheets = st.sheets ∧
      (syncEffect decode st prop).hasPendingEdits = st.hasPendingEdits) ∧
    (∀ (decode : Nat → RawInput) (st : WorkbookState) (s : Nat),
      (syncEffect decode (clearPendingEdits st) (some s)).sheets
        = parseSheets (decode s)) := by
  constructor
  · intro decode st prop
    constructor
    · match prop with
      | none => rfl
      | some s =>
          simp only [syncEffect, markPendingEdits]
          split
          · rfl
          · rfl
    · match prop with
      | none => rfl
      | some s =>
          simp only [syncEffect]
          split
          · rfl
          · split
            · rfl
            · rfl
  · intro decode st s
    simp [syncEffect, clearPendingEdits]

/-- C2: `triggerSheetChange` is two-phase with asymmetric failure handling.
The returned boolean is `true` exactly when both the attribute write and
the commit action succeed; when the write step fails or is skipped
(attribute absent, status not `"available"`, `setValue` missing or
throwing) nothing is written and `execute()` is never invoked; when the
write succeeds, the written value stays in place whether or not the commit
step fails (action absent, blocked, or throwing). -/
theorem triggerSheetChange_two_phase (attr : Option MxAttr) (json : String)
    (act : Option MxAction) :
    (triggerSheetChange attr json act).result
      = (writeOk attr && commitOk act) ∧
    (triggerSheetChange attr json act).written
      = (if writeOk attr then some json else none) ∧
    (triggerSheetChange attr json act).executed
      = (writeOk attr && commitInvoked act) := by
  match attr with
  | none => exact ⟨rfl, rfl, rfl⟩
  | some a =>
      match act with
      | none =>
          simp only [triggerSheetChange, writeOk, commitOk, commitInvoked]
          by_cases h1 : a.status = "available" <;>
            by_cases h2 : a.hasSetValue <;>
              by_cases h3 : a.setValueThrows <;>
                simp [h1, h2, h3]
      | some b =>
          simp only [triggerSheetChange, writeOk, commitOk, commitInvoked]
          by_cases h1 : a.status = "available" <;>
            by_cases h2 : a.hasSetValue <;>
              by_cases h3 : a.setValueThrows <;>
                by_cases h4 : b.canExecute <;>
                  by_cases h5 : b.executeThrows <;>
                    simp [h1, h2, h3, h4, h5]

/-- C3 (code divergence): `parseSheetJson` is claimed never to raise, but
the shape guard `typeof raw !== "object" || Array.isArray(raw)` lets the
JSON value `null` through (`typeof null === "object"`), after which the
property read `raw.data` throws a `TypeError`.  All other malformed inputs
are indeed recovered to the empty default. -/
theorem parseSheetJson_null_throws :
    parseSheetJson (.parsed .null) 50
      = .error "TypeError: Cannot read properties of null" ∧
    parseSheetJson .notAString 50 = .ok (buildEmptySheetData 50) ∧
    parseSheetJson .emptyOrWhitespace 50 = .ok (buildEmptySheetData 50) ∧
    parseSheetJson .invalidJson 50 = .ok (buildEmptySheetData 50) ∧
    parseSheetJson (.parsed (.arr [])) 50 = .ok (buildEmptySheetData 50) ∧
    parseSheetJson (.parsed (.num 5)) 50 = .ok (buildEmptySheetData 50) ∧
    parseSheetJson (.parsed (.str "x")) 50 = .ok (buildEmptySheetData 50) ∧
    parseSheetJson (.parsed (.bool true)) 50 = .ok (buildEmptySheetData 50) :=
  ⟨rfl, rfl, rfl, rfl, rfl, rfl, rfl, rfl⟩

/-- C7 counterexample: the claimed formula
`isAdmin OR (NOT read-only AND isEditable)` fails against `canEditSheet` at
`isAdmin = true`, `workbook-read-only = true`, `sheet.isEditable = true`:
the code returns `false`, the formula `true`. -/
theorem canEditSheet_isAdmin_counterexample :
    canEditSheet true true = false ∧ (true || (!true && true)) = true := by
  exact ⟨rfl, rfl⟩

/-- C7 (amended): for every combination of the booleans — and independently
of any `isAdmin` flag, which `usePermissions` does not consult — the
cell-edit permission equals `NOT workbook-read-only AND sheet.isEditable`. -/
theorem canEditSheet_role_based :
    ∀ (_isAdmin wro ed : Bool), canEditSheet wro ed = (!wro && ed) := by
  intro _ wro ed
  cases wro <;> cases ed <;> rfl

/-- C8: structural (column) editing is admin-only — `canEditColumns` is the
admin flag itself — while there is a context (non-admin, matching trimmed
user ids, permission `"Edit"`) in which `canEditCells` is `true` and
`canEditColumns` is `false`. -/
theorem permission_asymmetry :
    (∀ isAdmin : Bool, canEditColumns isAdmin = isAdmin) ∧
    canEditCells false "alice" "alice" "Edit" = true ∧
    canEditColumns false = false :=
  ⟨fun _ => rfl, by simp [canEditCells, isUserMatch], rfl⟩

/-- C9 (code divergence): the auto-save coordinator is claimed to skip the
model's initial load, but the first effect clears the `isInitialLoad` ref
and the second effect of the same commit then sees it cleared: on the first
nonempty population after mount the coordinator enters `"saving"` and
schedules a debounced write.  The mount run itself (empty sheets) is
skipped, and subsequent changes do fire, as claimed. -/
theorem autoSave_fires_on_initial_load :
    (autoSaveOnSheetsChange initialAutoSaveState 0).savingStatus = "idle" ∧
    (autoSaveOnSheetsChange initialAutoSaveState 0).debouncePending = false ∧
    (autoSaveOnSheetsChange
        (autoSaveOnSheetsChange initialAutoSaveState 0) 1).savingStatus
      = "saving" ∧
    (autoSaveOnSheetsChange
        (autoSaveOnSheetsChange initialAutoSaveState 0) 1).debouncePending
      = true :=
  ⟨rfl, rfl, rfl, rfl⟩
